import Mathlib

/-!
# Verification of the codecrafters HTTP server (`src/main.rs`)

Shallow embedding of the request parser (`HttpRequest::from_byte_array`),
the response builder (`HttpResponse::new`, `prepare_plain_text_headers`,
`prepare_octet_stream_headers`), the serializer (`impl fmt::Display for
HttpResponse`) and the route dispatcher (`process`).

Modelling conventions:
* Rust `String` / `&str` values are modelled as `List Char`.  The buffer
  handed to `from_byte_array` is modelled as the character sequence produced
  by `String::from_utf8_lossy`; for ASCII bytes that decoding maps each byte
  to the character of the same code point (a zero byte becomes `U+0000`).
* Rust panics (`unwrap`, `expect`, the unsupported-status `panic!`) are
  modelled as `none`: a `none` result means the connection task crashes and
  no response is written.
* `HashMap` values (request headers, response headers) are modelled as
  association lists written by `assocSet` (insert-or-replace, later insert
  wins) and read by `assocGet`.  Rust's `HashMap` iteration order is
  arbitrary; the serializer model iterates in list order, and no theorem
  below depends on the order of a non-empty header map.
* The filesystem touched by the `/files/...` routes is an external
  collaborator; it is modelled as an association list from path strings to
  contents.  `fs::write` discards its `Result` in the source (`let _ =`), so
  `process` takes a `writeOk : Bool` oracle telling whether the underlying
  write succeeded; the written state changes only when `writeOk = true`.
-/

/-- `char::is_whitespace` (the Unicode White_Space property), used by Rust's
`str::split_whitespace`. -/
def isRustWhitespace (c : Char) : Bool :=
  let n := c.toNat
  n = 0x9 || n = 0xA || n = 0xB || n = 0xC || n = 0xD || n = 0x20 ||
  n = 0x85 || n = 0xA0 || n = 0x1680 ||
  (0x2000 ≤ n && n ≤ 0x200A) ||
  n = 0x2028 || n = 0x2029 || n = 0x202F || n = 0x205F || n = 0x3000

/-- `p.isPrefixOf l` for the pattern argument order of Rust `str::starts_with`. -/
def startsWithL : List Char → List Char → Bool
  | [], _ => true
  | _ :: _, [] => false
  | p :: ps, c :: cs => p = c && startsWithL ps cs

/-- Rust `str::split_once(pat)` for a non-empty pattern: split at the first
occurrence of `pat`, returning the parts before and after it, or `none` when
`pat` does not occur. -/
def splitOnceL (pat : List Char) : List Char → Option (List Char × List Char)
  | [] => none
  | c :: cs =>
    if startsWithL pat (c :: cs) then
      some ([], (c :: cs).drop pat.length)
    else
      match splitOnceL pat cs with
      | some (a, b) => some (c :: a, b)
      | none => none

/-- Helper of `splitWhitespaceL`: `acc` holds the characters of the token in
progress, in reverse. -/
def splitWsAux : List Char → List Char → List (List Char)
  | acc, [] => if acc = [] then [] else [acc.reverse]
  | acc, c :: cs =>
    if isRustWhitespace c then
      if acc = [] then splitWsAux [] cs else acc.reverse :: splitWsAux [] cs
    else
      splitWsAux (c :: acc) cs

/-- Rust `str::split_whitespace`: the maximal whitespace-free tokens, in
order, with no empty tokens. -/
def splitWhitespaceL (l : List Char) : List (List Char) :=
  splitWsAux [] l

/-- Insert-or-replace on an association list; models both `HashMap::insert`
and a whole-file `fs::write` (create or overwrite). -/
def assocSet (k v : List Char) : List (List Char × List Char) → List (List Char × List Char)
  | [] => [(k, v)]
  | (k2, v2) :: rest =>
    if k2 = k then (k, v) :: rest else (k2, v2) :: assocSet k v rest

/-- Lookup on an association list; models `HashMap::get` and a whole-file
read. -/
def assocGet (k : List Char) : List (List Char × List Char) → Option (List Char)
  | [] => none
  | (k2, v) :: rest => if k2 = k then some v else assocGet k rest

/-- The UTF-8 byte count of a character, as Rust `String::len` counts it. -/
def charUtf8Size (c : Char) : Nat :=
  if c.toNat < 0x80 then 1
  else if c.toNat < 0x800 then 2
  else if c.toNat < 0x10000 then 3
  else 4

/-- Rust `String::len`: the UTF-8 byte length of a string. -/
def byteLen (l : List Char) : Nat :=
  (l.map charUtf8Size).sum

/-- Rust `usize::to_string` (decimal digits). -/
def natChars (n : Nat) : List Char :=
  (Nat.repr n).data

/- Character-list constants for the string literals of the source. -/

def cGET : List Char := "GET".data
def cPOST : List Char := "POST".data
def cRoot : List Char := "/".data
def cEchoSlash : List Char := "/echo/".data
def cUserAgentPath : List Char := "/user-agent".data
def cUserAgentKey : List Char := "User-Agent".data
def cFilesSlash : List Char := "/files/".data
def cFiles : List Char := "/files".data
def cContentType : List Char := "Content-Type".data
def cContentLength : List Char := "Content-Length".data
def cTextPlain : List Char := "text/plain".data
def cOctetStream : List Char := "application/octet-stream".data
def cStatus200 : List Char := "200 OK".data
def cStatus201 : List Char := "201 Created".data
def cStatus404 : List Char := "404 Not Found".data
def crlf : List Char := "\r\n".data
def sepCRLF2 : List Char := "\r\n\r\n".data
def nulChar : Char := Char.ofNat 0

/-- The parsed request (`struct HttpRequest`). -/
structure HttpRequest where
  verb : List Char
  path : List Char
  protocol : List Char
  headers : List (List Char × List Char)
  body : List Char
  deriving DecidableEq

/-- The response value (`struct HttpResponse`); `status` holds the combined
status-code/reason string, exactly as in the source. -/
structure HttpResponse where
  body : List Char
  protocol : List Char
  status : List Char
  headers : List (List Char × List Char)
  deriving DecidableEq

/-- `HttpResponse::new`: only 200, 404 and 201 are supported; any other
numeric status hits the `panic!` branch, modelled as `none`. -/
def HttpResponse.new (body protocol : List Char) (status : Nat) : Option HttpResponse :=
  if status = 200 then some ⟨body, protocol, cStatus200, []⟩
  else if status = 404 then some ⟨body, protocol, cStatus404, []⟩
  else if status = 201 then some ⟨body, protocol, cStatus201, []⟩
  else none

/-- `HttpResponse::prepare_plain_text_headers`. -/
def HttpResponse.preparePlainTextHeaders (r : HttpResponse) : HttpResponse :=
  let hs := assocSet cContentLength (natChars (byteLen r.body))
    (assocSet cContentType cTextPlain r.headers)
  { r with headers := hs }

/-- `HttpResponse::prepare_octet_stream_headers`. -/
def HttpResponse.prepareOctetStreamHeaders (r : HttpResponse) : HttpResponse :=
  let hs := assocSet cContentLength (natChars (byteLen r.body))
    (assocSet cContentType cOctetStream r.headers)
  { r with headers := hs }

/-- `impl fmt::Display for HttpResponse`: status line, then one
`\r\n<name>: <value>` per header, then `\r\n\r\n<body>` when the body is
non-empty, and a final `\r\n\r\n` always. -/
def serializeResponse (r : HttpResponse) : List Char :=
  let base := r.protocol ++ ' ' :: r.status
  let withHeaders :=
    r.headers.foldl (fun acc kv => acc ++ crlf ++ kv.1 ++ ':' :: ' ' :: kv.2) base
  let withBody :=
    if r.body = [] then withHeaders else withHeaders ++ crlf ++ crlf ++ r.body
  withBody ++ crlf ++ crlf

/-- The tail of `HttpRequest::from_byte_array` once the buffer has been split
into head (`parts`) and body: tokenize the head on whitespace, take verb,
path and protocol (each `expect` panic is `none`), then consume the
remaining tokens pairwise (`chunks(2).filter(len == 2)`), splitting each
first token at its first `:` (`split_once(':').unwrap`, `none` when no colon
is present) and collecting into the header map (later duplicate keys win,
as in `HashMap::collect`). -/
def parseHead (parts body : List Char) : Option HttpRequest :=
  match splitWhitespaceL parts with
  | verb :: path :: protocol :: rest =>
    match parseHeaderPairs rest with
    | some prs =>
      some ⟨verb, path, protocol,
        prs.foldl (fun m kv => assocSet kv.1 kv.2 m) [], body⟩
    | none => none
  | _ => none
where
  parseHeaderPairs : List (List Char) → Option (List (List Char × List Char))
    | [] => some []
    | [_] => some []
    | a :: b :: rest =>
      match splitOnceL [':'] a with
      | some p =>
        match parseHeaderPairs rest with
        | some tl => some ((p.1, b) :: tl)
        | none => none
      | none => none

/-- `HttpRequest::from_byte_array`: split the decoded buffer at the first
`\r\n\r\n` — `unwrap_or_default()` yields the pair `("", "")` when the
separator is absent — then parse head and body. -/
def HttpRequest.fromByteArray (buf : List Char) : Option HttpRequest :=
  let pb := (splitOnceL sepCRLF2 buf).getD ([], [])
  parseHead pb.1 pb.2

/-- The filesystem seen by the `/files/...` routes: path string to file
contents.  `path.exists()` is `assocGet`-success. -/
abbrev FsState := List (List Char × List Char)

/-- The route dispatcher `process`, after the read and the parse: takes the
configuration (`arg.directory`), the filesystem state and the parsed
request, and returns the response together with the filesystem afterwards,
or `none` when the handling task panics (missing `User-Agent` header on
`/user-agent`, absent `--directory` on a `/files/...` route).
`writeOk` tells whether the `fs::write` of the POST route succeeds; its
result is discarded by the source (`let _ =`). -/
def process (writeOk : Bool) (directory : Option (List Char)) (fs : FsState)
    (request : HttpRequest) : Option (HttpResponse × FsState) :=
  if request.verb = cGET ∧ request.path = cRoot then
    match HttpResponse.new [] request.protocol 200 with
    | some r => some (r, fs)
    | none => none
  else if request.verb = cGET ∧ startsWithL cEchoSlash request.path then
    match splitOnceL cEchoSlash request.path with
    | some p =>
      match HttpResponse.new p.2 request.protocol 200 with
      | some r => some (r.preparePlainTextHeaders, fs)
      | none => none
    | none => none
  else if request.verb = cGET ∧ request.path = cUserAgentPath then
    match assocGet cUserAgentKey request.headers with
    | some ua =>
      match HttpResponse.new ua request.protocol 200 with
      | some r => some (r.preparePlainTextHeaders, fs)
      | none => none
    | none => none
  else if request.verb = cGET ∧ startsWithL cFilesSlash request.path then
    match splitOnceL cFiles request.path with
    | some p =>
      match directory with
      | some dir =>
        match assocGet (dir ++ '/' :: p.2) fs with
        | some contents =>
          match HttpResponse.new contents request.protocol 200 with
          | some r => some (r.prepareOctetStreamHeaders, fs)
          | none => none
        | none =>
          match HttpResponse.new [] request.protocol 404 with
          | some r => some (r, fs)
          | none => none
      | none => none
    | none => none
  else if request.verb = cPOST ∧ startsWithL cFilesSlash request.path then
    match splitOnceL cFiles request.path with
    | some p =>
      match directory with
      | some dir =>
        match HttpResponse.new [] request.protocol 201 with
        | some r =>
          some (r, if writeOk then assocSet (dir ++ '/' :: p.2) request.body fs else fs)
        | none => none
      | none => none
    | none => none
  else
    match HttpResponse.new [] request.protocol 404 with
    | some r => some (r, fs)
    | none => none

/-- Amended header-pair specification (used for the corrected claim about
header tokenization): tokens after the request line are consumed pairwise;
the header name is the portion of the pair's first token before its first
colon (so that token must contain a colon), the second token is the value,
used as-is, and an unpaired trailing token is dropped. -/
inductive PairedHeaders : List (List Char) → List (List Char × List Char) → Prop where
  | nil : PairedHeaders [] []
  | single (t : List Char) : PairedHeaders [t] []
  | cons (nk nr valTok : List Char) (rest : List (List Char))
      (prs : List (List Char × List Char)) :
      ':' ∉ nk → PairedHeaders rest prs →
      PairedHeaders ((nk ++ ':' :: nr) :: valTok :: rest) ((nk, valTok) :: prs)

/-- A buffer with a full request line and no blank-line separator. -/
def c3buf : List Char := ("GET / HTTP/1.1").data

/-- The decoded text of a small POST request read into the 1024-byte buffer. -/
def c10s : List Char := ("POST /files/f HTTP/1.1\r\n\r\nhi").data

/-- The `U+0000` tail the zero-initialized buffer contributes after `c10s`. -/
def c10pad : List Char := List.replicate (1024 - c10s.length) nulChar

/-- The request the parser extracts from the padded buffer holding `c10s`. -/
def c10req : HttpRequest :=
  ⟨cPOST, ("/files/f").data, ("HTTP/1.1").data, [], ('h' :: 'i' :: []) ++ c10pad⟩

/-! ## Helper lemmas about the string primitives -/

theorem startsWithL_iff_take (p : List Char) : ∀ l : List Char,
    startsWithL p l = true ↔ l.take p.length = p := by
  induction p with
  | nil => intro l; simp [startsWithL]
  | cons pc ps ih =>
    intro l
    cases l with
    | nil => simp [startsWithL]
    | cons c cs =>
      rw [startsWithL, Bool.and_eq_true, decide_eq_true_eq, List.length_cons,
        List.take_succ_cons, List.cons.injEq, ih]
      exact and_congr eq_comm Iff.rfl

theorem startsWithL_length_le {p l : List Char} (h : startsWithL p l = true) :
    p.length ≤ l.length := by
  have ht := (startsWithL_iff_take p l).mp h
  have := congrArg List.length ht
  simp [List.length_take] at this
  omega

theorem startsWithL_append_left {p l : List Char} (t : List Char)
    (hle : p.length ≤ l.length) :
    startsWithL p (l ++ t) = startsWithL p l := by
  rcases h1 : startsWithL p l with _ | _
  · rcases h2 : startsWithL p (l ++ t) with _ | _
    · rfl
    · have := (startsWithL_iff_take p (l ++ t)).mp h2
      rw [List.take_append_of_le_length hle] at this
      rw [(startsWithL_iff_take p l).mpr this] at h1
      exact absurd h1 (by simp)
  · have := (startsWithL_iff_take p l).mp h1
    refine (startsWithL_iff_take p (l ++ t)).mpr ?_
    rw [List.take_append_of_le_length hle, this]

theorem startsWithL_append_self (p t : List Char) :
    startsWithL p (p ++ t) = true := by
  refine (startsWithL_iff_take p (p ++ t)).mpr ?_
  exact List.take_left p t

theorem splitOnceL_of_startsWith {p l : List Char} (hp : p ≠ [])
    (h : startsWithL p l = true) :
    splitOnceL p l = some ([], l.drop p.length) := by
  cases l with
  | nil =>
    have := startsWithL_length_le h
    cases p with
    | nil => exact absurd rfl hp
    | cons a as => simp at this
  | cons c cs => simp [splitOnceL, h]

theorem splitOnceL_self_append {p : List Char} (hp : p ≠ []) (t : List Char) :
    splitOnceL p (p ++ t) = some ([], t) := by
  rw [splitOnceL_of_startsWith hp (startsWithL_append_self p t), List.drop_left]

theorem splitOnceL_eq_append {p : List Char} : ∀ {l a b : List Char},
    splitOnceL p l = some (a, b) → l = a ++ p ++ b := by
  intro l
  induction l with
  | nil => intro a b h; simp [splitOnceL] at h
  | cons c cs ih =>
    intro a b h
    rw [splitOnceL] at h
    by_cases hsw : startsWithL p (c :: cs) = true
    · rw [if_pos hsw] at h
      obtain ⟨ha, hb⟩ := Prod.mk.injEq .. ▸ Option.some.injEq .. ▸ h
      subst ha
      subst hb
      have ht := (startsWithL_iff_take p (c :: cs)).mp hsw
      have := List.take_append_drop p.length (c :: cs)
      rw [ht] at this
      simpa using this.symm
    · rw [if_neg hsw] at h
      rcases hr : splitOnceL p cs with _ | ⟨a2, b2⟩
      · rw [hr] at h; simp at h
      · rw [hr] at h
        simp only [Option.some.injEq, Prod.mk.injEq] at h
        obtain ⟨ha, hb⟩ := h
        subst hb
        rw [← ha]
        simpa using ih hr

theorem splitOnceL_length_le {p l a b : List Char}
    (h : splitOnceL p l = some (a, b)) : p.length ≤ l.length := by
  have := splitOnceL_eq_append h
  subst this
  simp
  omega

theorem splitOnceL_append {p : List Char} (t : List Char) : ∀ {l a b : List Char},
    splitOnceL p l = some (a, b) → splitOnceL p (l ++ t) = some (a, b ++ t) := by
  intro l
  induction l with
  | nil => intro a b h; simp [splitOnceL] at h
  | cons c cs ih =>
    intro a b h
    rw [splitOnceL] at h
    by_cases hsw : startsWithL p (c :: cs) = true
    · rw [if_pos hsw] at h
      obtain ⟨ha, hb⟩ := Prod.mk.injEq .. ▸ Option.some.injEq .. ▸ h
      subst ha
      have hle := startsWithL_length_le hsw
      rw [show (c :: cs) ++ t = c :: (cs ++ t) from rfl, splitOnceL,
        if_pos (by rw [show c :: (cs ++ t) = (c :: cs) ++ t from rfl,
          startsWithL_append_left t hle]; exact hsw)]
      rw [show c :: (cs ++ t) = (c :: cs) ++ t from rfl,
        List.drop_append_of_le_length hle, hb]
    · rw [if_neg hsw] at h
      rcases hr : splitOnceL p cs with _ | ⟨a2, b2⟩
      · rw [hr] at h; simp at h
      · rw [hr] at h
        simp only [Option.some.injEq, Prod.mk.injEq] at h
        obtain ⟨ha, hb⟩ := h
        have hle : p.length ≤ (c :: cs).length := by
          have := splitOnceL_length_le hr
          simp
          omega
        rw [show (c :: cs) ++ t = c :: (cs ++ t) from rfl, splitOnceL,
          if_neg (by rw [show c :: (cs ++ t) = (c :: cs) ++ t from rfl,
            startsWithL_append_left t hle]; exact hsw)]
        rw [ih hr]
        simp [← ha, hb]

theorem splitOnceL_single_not_mem {ch : Char} : ∀ {l a b : List Char},
    splitOnceL [ch] l = some (a, b) → ch ∉ a := by
  intro l
  induction l with
  | nil => intro a b h; simp [splitOnceL] at h
  | cons c cs ih =>
    intro a b h
    rw [splitOnceL] at h
    by_cases hsw : startsWithL [ch] (c :: cs) = true
    · rw [if_pos hsw] at h
      obtain ⟨ha, _⟩ := Prod.mk.injEq .. ▸ Option.some.injEq .. ▸ h
      subst ha
      simp
    · rw [if_neg hsw] at h
      rcases hr : splitOnceL [ch] cs with _ | ⟨a2, b2⟩
      · rw [hr] at h; simp at h
      · rw [hr] at h
        simp only [Option.some.injEq, Prod.mk.injEq] at h
        obtain ⟨ha, _⟩ := h
        have hc : ch ≠ c := by
          intro hcc
          subst hcc
          simp [startsWithL] at hsw
        rw [← ha]
        intro hmem
        rcases List.mem_cons.mp hmem with h1 | h1
        · exact hc h1
        · exact ih hr h1

theorem assocGet_assocSet_self (k v : List Char) : ∀ m : FsState,
    assocGet k (assocSet k v m) = some v := by
  intro m
  induction m with
  | nil => simp [assocSet, assocGet]
  | cons kv rest ih =>
    obtain ⟨k2, v2⟩ := kv
    by_cases hk : k2 = k
    · simp [assocSet, assocGet, hk]
    · simp [assocSet, assocGet, hk, ih]

theorem byteLen_ascii : ∀ {s : List Char}, (∀ c ∈ s, c.toNat < 128) →
    byteLen s = s.length := by
  intro s
  induction s with
  | nil => intro _; rfl
  | cons c cs ih =>
    intro h
    have hc : c.toNat < 128 := h c (by simp)
    have : charUtf8Size c = 1 := by
      unfold charUtf8Size
      rw [if_pos (by omega)]
    have h2 := ih (fun x hx => h x (List.mem_cons_of_mem _ hx))
    simp [byteLen, this] at h2 ⊢
    omega

theorem startsWithL_two {p q l : List Char} (hp : startsWithL p l = true)
    (hq : startsWithL q l = true) (hlen : p.length ≤ q.length) :
    p = q.take p.length := by
  have tp := (startsWithL_iff_take p l).mp hp
  have tq := (startsWithL_iff_take q l).mp hq
  calc p = l.take p.length := tp.symm
    _ = (l.take q.length).take p.length := by
        rw [List.take_take, inf_of_le_left hlen]
    _ = q.take p.length := by rw [tq]

theorem startsWithL_of_append {p q l : List Char}
    (h : startsWithL (p ++ q) l = true) : startsWithL p l = true := by
  refine (startsWithL_iff_take p l).mpr ?_
  have t := (startsWithL_iff_take (p ++ q) l).mp h
  calc l.take p.length = (l.take (p ++ q).length).take p.length := by
        rw [List.take_take, inf_of_le_left (by simp)]
    _ = (p ++ q).take p.length := by rw [t]
    _ = p := List.take_left p q

/-! ## Route-guard facts for `/files/...` paths -/

theorem files_ne_root {path : List Char} (h : startsWithL cFilesSlash path = true) :
    path ≠ cRoot := by
  intro he
  rw [he] at h
  exact absurd h (by decide)

theorem files_not_echo {path : List Char} (h : startsWithL cFilesSlash path = true) :
    ¬ startsWithL cEchoSlash path = true := by
  intro he
  exact absurd (startsWithL_two he h (by decide)) (by decide)

theorem files_ne_ua {path : List Char} (h : startsWithL cFilesSlash path = true) :
    path ≠ cUserAgentPath := by
  intro he
  rw [he] at h
  exact absurd h (by decide)

theorem files_startsWith_files {path : List Char}
    (h : startsWithL cFilesSlash path = true) : startsWithL cFiles path = true := by
  have hfs : cFilesSlash = cFiles ++ ['/'] := by decide
  rw [hfs] at h
  exact startsWithL_of_append h

/-! ## Facts about the parser and the dispatcher -/

theorem parseHead_body {h b : List Char} {req : HttpRequest}
    (hp : parseHead h b = some req) : req.body = b := by
  rw [parseHead] at hp
  split at hp
  · split at hp
    · simp only [Option.some.injEq] at hp
      subst hp
      rfl
    · exact absurd hp (by simp)
  · exact absurd hp (by simp)

@[simp] theorem preparePlain_status (r : HttpResponse) :
    (HttpResponse.preparePlainTextHeaders r).status = r.status := rfl

@[simp] theorem preparePlain_body (r : HttpResponse) :
    (HttpResponse.preparePlainTextHeaders r).body = r.body := rfl

@[simp] theorem prepareOctet_status (r : HttpResponse) :
    (HttpResponse.prepareOctetStreamHeaders r).status = r.status := rfl

@[simp] theorem prepareOctet_body (r : HttpResponse) :
    (HttpResponse.prepareOctetStreamHeaders r).body = r.body := rfl

/-- `HttpResponse::new` at the three supported codes, fully evaluated. -/
theorem HttpResponse.new_200 (b p : List Char) :
    HttpResponse.new b p 200 = some ⟨b, p, cStatus200, []⟩ := rfl

theorem HttpResponse.new_201 (b p : List Char) :
    HttpResponse.new b p 201 = some ⟨b, p, cStatus201, []⟩ := rfl

theorem HttpResponse.new_404 (b p : List Char) :
    HttpResponse.new b p 404 = some ⟨b, p, cStatus404, []⟩ := rfl

/-- Every successful run of the dispatcher goes through `HttpResponse::new`
at 200, 201 or 404, possibly followed by one of the header-preparing
helpers, which keep the status untouched. -/
theorem process_status {wk : Bool} {dir : Option (List Char)} {fs : FsState}
    {req : HttpRequest} {r : HttpResponse} {fs2 : FsState}
    (h : process wk dir fs req = some (r, fs2)) :
    r.status = cStatus200 ∨ r.status = cStatus201 ∨ r.status = cStatus404 := by
  unfold process at h
  simp only [HttpResponse.new_200, HttpResponse.new_201, HttpResponse.new_404] at h
  repeat' split at h
  all_goals
    first
      | (simp only [Option.some.injEq, Prod.mk.injEq] at h
         obtain ⟨h1, h2⟩ := h
         subst h1
         simp)
      | simp at h

/-- The POST `/files/...` branch of `process`, fully evaluated: it always
answers `201 Created` with an empty body and no headers, and updates the
filesystem only when the underlying write succeeds. -/
theorem process_post_files (wk : Bool) (d : List Char) (fs : FsState)
    (req : HttpRequest) (hv : req.verb = cPOST)
    (hp : startsWithL cFilesSlash req.path = true) :
    process wk (some d) fs req =
      some (⟨[], req.protocol, cStatus201, []⟩,
        if wk then assocSet (d ++ '/' :: req.path.drop cFiles.length) req.body fs
        else fs) := by
  have hsplit : splitOnceL cFiles req.path
      = some ([], req.path.drop cFiles.length) :=
    splitOnceL_of_startsWith (by decide) (files_startsWith_files hp)
  have hne : ¬(cPOST = cGET) := by decide
  unfold process
  rw [if_neg (by rintro ⟨h1, _⟩; rw [hv] at h1; exact hne h1)]
  rw [if_neg (by rintro ⟨h1, _⟩; rw [hv] at h1; exact hne h1)]
  rw [if_neg (by rintro ⟨h1, _⟩; rw [hv] at h1; exact hne h1)]
  rw [if_neg (by rintro ⟨h1, _⟩; rw [hv] at h1; exact hne h1)]
  rw [if_pos ⟨hv, hp⟩, hsplit]
  simp [HttpResponse.new]

/-- The header pairing the implementation computes is the pairing described
by `PairedHeaders`: names are the part before the first colon of the first
token of each pair. -/
theorem parseHeaderPairs_paired :
    ∀ (rest : List (List Char)) (prs : List (List Char × List Char)),
      parseHead.parseHeaderPairs rest = some prs → PairedHeaders rest prs
  | [], prs, h => by
    simp only [parseHead.parseHeaderPairs, Option.some.injEq] at h
    subst h
    exact PairedHeaders.nil
  | [t], prs, h => by
    simp only [parseHead.parseHeaderPairs, Option.some.injEq] at h
    subst h
    exact PairedHeaders.single t
  | a :: b :: rest, prs, h => by
    rw [parseHead.parseHeaderPairs] at h
    rcases hsp : splitOnceL [':'] a with _ | p2 <;> rw [hsp] at h
    · exact absurd h (by simp)
    · rcases hpp : parseHead.parseHeaderPairs rest with _ | tl <;> rw [hpp] at h
      · exact absurd h (by simp)
      · simp only [Option.some.injEq] at h
        subst h
        have ha : a = p2.1 ++ [':'] ++ p2.2 := by
          have := splitOnceL_eq_append hsp
          simpa using this
        have hnc : ':' ∉ p2.1 := splitOnceL_single_not_mem hsp
        have hrec := parseHeaderPairs_paired rest tl hpp
        subst ha
        rw [List.append_assoc]
        exact PairedHeaders.cons p2.1 p2.2 b rest tl hnc hrec

/-! ## The claims -/

/-- C3 counterexample: the buffer `"GET / HTTP/1.1"` contains no
`\r\n\r\n` separator; the claim says the whole buffer becomes the head (so
parsing would succeed, as the third conjunct shows it would on that head),
but `unwrap_or_default()` makes both head and body empty and the parse
fails. -/
theorem fromByteArray_no_separator_cex :
    splitOnceL sepCRLF2 c3buf = none
    ∧ HttpRequest.fromByteArray c3buf = none
    ∧ parseHead c3buf [] = some ⟨cGET, cRoot, ("HTTP/1.1").data, [], []⟩ := by
  decide

/-- C3 (amended): when the blank-line separator `\r\n\r\n` does not occur in
the buffer, `split_once(..).unwrap_or_default()` yields an empty head and an
empty body, so tokenization finds no verb token and the parse is a fatal
per-connection error (no request is produced). -/
theorem fromByteArray_no_separator (buf : List Char)
    (h : splitOnceL sepCRLF2 buf = none) :
    HttpRequest.fromByteArray buf = none := by
  rw [HttpRequest.fromByteArray, h]
  rfl

theorem fromByteArray_no_separator_witness :
    HttpRequest.fromByteArray (("abc").data) = none :=
  fromByteArray_no_separator (("abc").data) (by decide)

/-- C4 counterexample: in the head `"GET / HTTP/1.1 X:Y: v"` the header
token `"X:Y:"` has a trailing colon; stripping that trailing colon would
give the name `"X:Y"`, but the implementation splits at the first colon and
stores the name `"X"`, so the claimed name is absent from the header map. -/
theorem header_name_cex :
    parseHead (("GET / HTTP/1.1 X:Y: v").data) []
      = some ⟨cGET, cRoot, ("HTTP/1.1").data, [(['X'], ['v'])], []⟩
    ∧ assocGet (("X:Y").data) [((['X'] : List Char), (['v'] : List Char))] = none := by
  decide

/-- C4 (amended): for every head whose whitespace tokenization has at least
three tokens, the tokens after the first three are consumed pairwise, where
the header name is the portion of the first token of each pair before its
first colon (a pair whose first token contains no colon makes the parse
fail), the value is the second token used as-is, and any unpaired trailing
token is dropped. -/
theorem header_pairs_amended :
    (∀ (head body v p pr : List Char) (rest : List (List Char)),
      splitWhitespaceL head = v :: p :: pr :: rest →
      parseHead head body
        = (parseHead.parseHeaderPairs rest).map
            (fun prs => ⟨v, p, pr,
              prs.foldl (fun m kv => assocSet kv.1 kv.2 m) [], body⟩))
    ∧ (∀ (rest : List (List Char)) (prs : List (List Char × List Char)),
      parseHead.parseHeaderPairs rest = some prs → PairedHeaders rest prs) := by
  constructor
  · intro head body v p pr rest htok
    rw [parseHead, htok]
    rcases hpp : parseHead.parseHeaderPairs rest with _ | prs <;> simp [hpp]
  · exact parseHeaderPairs_paired

theorem header_pairs_amended_witness :
    parseHead (("GET / HTTP/1.1 Host: x").data) []
      = (parseHead.parseHeaderPairs [("Host:").data, ['x']]).map
          (fun prs => ⟨cGET, cRoot, ("HTTP/1.1").data,
            prs.foldl (fun m kv => assocSet kv.1 kv.2 m) [], []⟩)
    ∧ PairedHeaders [("Host:").data, ['x']] [(("Host").data, ['x'])] :=
  ⟨header_pairs_amended.1 (("GET / HTTP/1.1 Host: x").data) [] cGET cRoot
      (("HTTP/1.1").data) [("Host:").data, ['x']] (by decide),
    header_pairs_amended.2 [("Host:").data, ['x']] [(("Host").data, ['x'])]
      (by decide)⟩

/-- C5: serializing a response built with protocol `p`, status 200, an empty
body and an empty header map yields exactly the bytes `p ++ " 200 OK\r\n\r\n"`. -/
theorem serialize_status200_empty (p : List Char) :
    ∃ r, HttpResponse.new [] p 200 = some r
      ∧ serializeResponse r = p ++ (" 200 OK\r\n\r\n").data := by
  refine ⟨_, HttpResponse.new_200 [] p, ?_⟩
  show (p ++ ' ' :: cStatus200) ++ crlf ++ crlf = p ++ (" 200 OK\r\n\r\n").data
  rw [List.append_assoc, List.append_assoc]
  congr 1

/-- C6: `HttpResponse::new` attaches exactly the reason phrases "OK",
"Created" and "Not Found" to 200, 201 and 404, every other numeric status
takes the panic branch, and every response the dispatcher `process` produces
carries one of those three status strings. -/
theorem response_status_codes :
    (∀ b p, HttpResponse.new b p 200 = some ⟨b, p, cStatus200, []⟩)
    ∧ (∀ b p, HttpResponse.new b p 201 = some ⟨b, p, cStatus201, []⟩)
    ∧ (∀ b p, HttpResponse.new b p 404 = some ⟨b, p, cStatus404, []⟩)
    ∧ (∀ n, n ≠ 200 → n ≠ 201 → n ≠ 404 →
        ∀ b p, HttpResponse.new b p n = none)
    ∧ (∀ wk dir fs req r fs2, process wk dir fs req = some (r, fs2) →
        r.status = cStatus200 ∨ r.status = cStatus201 ∨ r.status = cStatus404) := by
  refine ⟨HttpResponse.new_200, HttpResponse.new_201, HttpResponse.new_404, ?_, ?_⟩
  · intro n h200 h201 h404 b p
    unfold HttpResponse.new
    rw [if_neg h200, if_neg h404, if_neg h201]
  · intro wk dir fs req r fs2 h
    exact process_status h

theorem response_status_codes_witness :
    HttpResponse.new [] [] 500 = none
    ∧ ((⟨[], [], cStatus200, []⟩ : HttpResponse).status = cStatus200
      ∨ (⟨[], [], cStatus200, []⟩ : HttpResponse).status = cStatus201
      ∨ (⟨[], [], cStatus200, []⟩ : HttpResponse).status = cStatus404) :=
  ⟨response_status_codes.2.2.2.1 500 (by decide) (by decide) (by decide) [] [],
    response_status_codes.2.2.2.2 true none [] ⟨cGET, cRoot, [], [], []⟩
      ⟨[], [], cStatus200, []⟩ [] (by decide)⟩

/-- C2: a GET request whose path is `/echo/` followed by an ASCII,
whitespace-free string `s` gets a response whose body is exactly `s`, whose
status is 200, whose `Content-Type` header is `text/plain` and whose
`Content-Length` header is the decimal byte length of `s` (for ASCII `s`,
its character count). -/
theorem echo_route (s proto body0 : List Char)
    (hs0 : List (List Char × List Char)) (wk : Bool) (dir : Option (List Char))
    (fs : FsState)
    (hascii : ∀ c ∈ s, c.toNat < 128)
    (hnws : ∀ c ∈ s, isRustWhitespace c = false) :
    ∃ r, process wk dir fs ⟨cGET, cEchoSlash ++ s, proto, hs0, body0⟩ = some (r, fs)
      ∧ r.body = s ∧ r.status = cStatus200
      ∧ assocGet cContentType r.headers = some cTextPlain
      ∧ assocGet cContentLength r.headers = some (natChars s.length) := by
  have hroot : ¬(cEchoSlash ++ s = cRoot) := by
    intro h2
    have hL := congrArg List.length h2
    rw [List.length_append] at hL
    have h6 : cEchoSlash.length = 6 := rfl
    have h1 : cRoot.length = 1 := rfl
    omega
  have hsw : startsWithL cEchoSlash (cEchoSlash ++ s) = true :=
    startsWithL_append_self cEchoSlash s
  have hsplit : splitOnceL cEchoSlash (cEchoSlash ++ s) = some ([], s) :=
    splitOnceL_self_append (by decide) s
  have hctcl : ¬(cContentType = cContentLength) := by decide
  refine ⟨HttpResponse.preparePlainTextHeaders ⟨s, proto, cStatus200, []⟩,
    ?_, rfl, rfl, ?_, ?_⟩
  · simp [process, hroot, hsw, hsplit, HttpResponse.new_200]
  · simp [HttpResponse.preparePlainTextHeaders, assocSet, assocGet, hctcl]
  · simp [HttpResponse.preparePlainTextHeaders, assocSet, assocGet, hctcl,
      byteLen_ascii hascii]

theorem echo_route_witness :
    ∃ r, process true none [] ⟨cGET, cEchoSlash ++ ('a' :: 'b' :: []), [], [], []⟩
        = some (r, [])
      ∧ r.body = ('a' :: 'b' :: []) ∧ r.status = cStatus200
      ∧ assocGet cContentType r.headers = some cTextPlain
      ∧ assocGet cContentLength r.headers = some (natChars ('a' :: 'b' :: []).length) :=
  echo_route ('a' :: 'b' :: []) [] [] [] true none [] (by decide) (by decide)

/-- C7: on `GET /user-agent`, a request whose header map lacks `User-Agent`
makes the handler crash (no response on that connection, modelled `none`);
when the header is present, the response body is exactly its value, with
status 200 and the plain-text headers. -/
theorem user_agent_route (wk : Bool) (dir : Option (List Char)) (fs : FsState)
    (proto body0 : List Char) (hs0 : List (List Char × List Char)) :
    (assocGet cUserAgentKey hs0 = none →
      process wk dir fs ⟨cGET, cUserAgentPath, proto, hs0, body0⟩ = none)
    ∧ (∀ v, assocGet cUserAgentKey hs0 = some v →
      ∃ r, process wk dir fs ⟨cGET, cUserAgentPath, proto, hs0, body0⟩ = some (r, fs)
        ∧ r.body = v ∧ r.status = cStatus200
        ∧ assocGet cContentType r.headers = some cTextPlain
        ∧ assocGet cContentLength r.headers = some (natChars (byteLen v))) := by
  have hroot : ¬(cUserAgentPath = cRoot) := by decide
  have hecho : startsWithL cEchoSlash cUserAgentPath = false := by decide
  have hctcl : ¬(cContentType = cContentLength) := by decide
  constructor
  · intro hua
    simp [process, hroot, hecho, hua]
  · intro v hua
    refine ⟨HttpResponse.preparePlainTextHeaders ⟨v, proto, cStatus200, []⟩,
      ?_, rfl, rfl, ?_, ?_⟩
    · simp [process, hroot, hecho, hua, HttpResponse.new_200]
    · simp [HttpResponse.preparePlainTextHeaders, assocSet, assocGet, hctcl]
    · simp [HttpResponse.preparePlainTextHeaders, assocSet, assocGet, hctcl]

theorem user_agent_route_witness :
    process true none [] ⟨cGET, cUserAgentPath, [], [], []⟩ = none
    ∧ ∃ r, process true none []
          ⟨cGET, cUserAgentPath, [], [(cUserAgentKey, ['z'])], []⟩ = some (r, [])
        ∧ r.body = ['z'] ∧ r.status = cStatus200
        ∧ assocGet cContentType r.headers = some cTextPlain
        ∧ assocGet cContentLength r.headers = some (natChars (byteLen ['z'])) :=
  ⟨(user_agent_route true none [] [] [] []).1 (by decide),
    (user_agent_route true none [] [] [] [(cUserAgentKey, ['z'])]).2 ['z'] (by decide)⟩

/-- C8: with a directory configured, every POST request whose path starts
with `/files/` is answered 201 with an empty body, whether or not the
filesystem write succeeded (`wk` ranges over both outcomes and the response
does not mention it). -/
theorem post_files_route (wk : Bool) (d proto body0 path : List Char)
    (hs0 : List (List Char × List Char)) (fs : FsState)
    (hpath : startsWithL cFilesSlash path = true) :
    ∃ fs2, process wk (some d) fs ⟨cPOST, path, proto, hs0, body0⟩
        = some (⟨[], proto, cStatus201, []⟩, fs2) :=
  ⟨_, process_post_files wk d fs ⟨cPOST, path, proto, hs0, body0⟩ rfl hpath⟩

theorem post_files_route_witness :
    ∃ fs2, process false (some ['d']) [] ⟨cPOST, ("/files/f.txt").data, [], [], ['b']⟩
        = some (⟨[], [], cStatus201, []⟩, fs2) :=
  post_files_route false ['d'] [] ['b'] (("/files/f.txt").data) [] [] (by decide)

/-- C9: without a configured serving directory, every GET or POST request
whose path starts with `/files/` unwraps the absent option, so the
connection task crashes and no response is produced. -/
theorem files_route_no_directory (wk : Bool) (fs : FsState)
    (verb path proto body0 : List Char) (hs0 : List (List Char × List Char))
    (hverb : verb = cGET ∨ verb = cPOST)
    (hpath : startsWithL cFilesSlash path = true) :
    process wk none fs ⟨verb, path, proto, hs0, body0⟩ = none := by
  have hsplit : splitOnceL cFiles path = some ([], path.drop cFiles.length) :=
    splitOnceL_of_startsWith (by decide) (files_startsWith_files hpath)
  rcases hverb with hv | hv <;> subst hv
  · simp only [process]
    rw [if_neg (by rintro ⟨-, h⟩; exact files_ne_root hpath h),
      if_neg (by rintro ⟨-, h⟩; exact files_not_echo hpath h),
      if_neg (by rintro ⟨-, h⟩; exact files_ne_ua hpath h),
      if_pos ⟨trivial, hpath⟩, hsplit]
  · have hne : ¬(cPOST = cGET) := by decide
    simp only [process]
    rw [if_neg (by rintro ⟨hg, -⟩; exact hne hg),
      if_neg (by rintro ⟨hg, -⟩; exact hne hg),
      if_neg (by rintro ⟨hg, -⟩; exact hne hg),
      if_neg (by rintro ⟨hg, -⟩; exact hne hg),
      if_pos ⟨trivial, hpath⟩, hsplit]

theorem files_route_no_directory_witness :
    process true none [] ⟨cGET, ("/files/f.txt").data, [], [], []⟩ = none ∧
    process true none [] ⟨cPOST, ("/files/f.txt").data, [], [], []⟩ = none :=
  ⟨files_route_no_directory true [] cGET (("/files/f.txt").data) [] [] []
      (Or.inl rfl) (by decide),
    files_route_no_directory true [] cPOST (("/files/f.txt").data) [] [] []
      (Or.inr rfl) (by decide)⟩

/-- C1: with a directory configured, a POST `/files/report.txt` carrying
body `B` stores `B` at the resolved path, and a following GET
`/files/report.txt` answers 200 with body exactly `B` and
`Content-Type: application/octet-stream`: the write-then-read round trip
through the files routes is the identity on the body. -/
theorem files_round_trip (B d proto1 proto2 body2 : List Char)
    (hs1 hs2 : List (List Char × List Char)) (fs : FsState) :
    ∃ r2,
      process true (some d) fs
          ⟨cPOST, ("/files/report.txt").data, proto1, hs1, B⟩
        = some (⟨[], proto1, cStatus201, []⟩,
            assocSet (d ++ '/' :: ("/report.txt").data) B fs)
      ∧ process true (some d) (assocSet (d ++ '/' :: ("/report.txt").data) B fs)
          ⟨cGET, ("/files/report.txt").data, proto2, hs2, body2⟩
        = some (r2, assocSet (d ++ '/' :: ("/report.txt").data) B fs)
      ∧ r2.status = cStatus200 ∧ r2.body = B
      ∧ assocGet cContentType r2.headers = some cOctetStream := by
  have hctcl : ¬(cContentType = cContentLength) := by decide
  refine ⟨HttpResponse.prepareOctetStreamHeaders ⟨B, proto2, cStatus200, []⟩,
    ?_, ?_, rfl, rfl, ?_⟩
  · have hsw : startsWithL cFilesSlash (("/files/report.txt").data) = true := by
      decide
    have h := process_post_files true d fs
      ⟨cPOST, ("/files/report.txt").data, proto1, hs1, B⟩ rfl hsw
    have hdrop : List.drop cFiles.length (("/files/report.txt").data)
        = ("/report.txt").data := rfl
    simpa [hdrop] using h
  · have hget : assocGet (d ++ '/' :: ("/report.txt").data)
        (assocSet (d ++ '/' :: ("/report.txt").data) B fs) = some B :=
      assocGet_assocSet_self _ _ _
    have hg1 : ¬((("/files/report.txt").data : List Char) = cRoot) := by decide
    have hg2 : startsWithL cEchoSlash (("/files/report.txt").data) = false := by
      decide
    have hg3 : ¬((("/files/report.txt").data : List Char) = cUserAgentPath) := by
      decide
    have hg4 : startsWithL cFilesSlash (("/files/report.txt").data) = true := by
      decide
    have hsplit : splitOnceL cFiles (("/files/report.txt").data)
        = some ([], ("/report.txt").data) := by decide
    simp [process, hg1, hg2, hg3, hg4, hsplit, hget, HttpResponse.new_200]
  · simp [HttpResponse.prepareOctetStreamHeaders, assocSet, assocGet, hctcl]

/-- C10: a read that fills `s.length < 1024` ASCII bytes of the
zero-initialized 1024-byte buffer decodes to `s` followed by `U+0000`
characters; when `s` contains the blank-line separator, the parsed body is
the text after the first separator extended with those NULs up to the
buffer capacity, and a POST `/files/...` of such a request writes exactly
this NUL-padded body to the filesystem. -/
theorem padded_buffer_body (s hd bd : List Char)
    (hsep : splitOnceL sepCRLF2 s = some (hd, bd))
    (hlen : s.length < 1024)
    (hascii : ∀ c ∈ s, c.toNat < 128) :
    (∀ req,
      HttpRequest.fromByteArray (s ++ List.replicate (1024 - s.length) nulChar)
        = some req →
      req.body = bd ++ List.replicate (1024 - s.length) nulChar)
    ∧ (∀ d fs req r fs2,
      HttpRequest.fromByteArray (s ++ List.replicate (1024 - s.length) nulChar)
        = some req →
      req.verb = cPOST → startsWithL cFilesSlash req.path = true →
      process true (some d) fs req = some (r, fs2) →
      ∃ key, fs2 = assocSet key (bd ++ List.replicate (1024 - s.length) nulChar) fs) := by
  have hsplit := splitOnceL_append (List.replicate (1024 - s.length) nulChar) hsep
  have hparse : ∀ req,
      HttpRequest.fromByteArray (s ++ List.replicate (1024 - s.length) nulChar)
        = some req →
      req.body = bd ++ List.replicate (1024 - s.length) nulChar := by
    intro req h
    rw [HttpRequest.fromByteArray, hsplit] at h
    exact parseHead_body h
  refine ⟨hparse, ?_⟩
  intro d fs req r fs2 hfb hv hp hproc
  rw [process_post_files true d fs req hv hp, Option.some_inj] at hproc
  have h2 : assocSet (d ++ '/' :: req.path.drop cFiles.length) req.body fs = fs2 := by
    have := congrArg Prod.snd hproc
    simpa using this
  exact ⟨d ++ '/' :: req.path.drop cFiles.length, by rw [← h2, hparse req hfb]⟩

set_option maxRecDepth 100000 in
theorem padded_buffer_body_witness :
    c10req.body = ('h' :: 'i' :: []) ++ List.replicate (1024 - c10s.length) nulChar :=
  (padded_buffer_body c10s (("POST /files/f HTTP/1.1").data) ('h' :: 'i' :: [])
      (by decide) (by decide) (by decide)).1 c10req (by decide)

